import Mathlib

/- Shallow embedding of the wms-core blok of anyblok_wms_base.

   Sources embedded here:
   - anyblok_wms_base/bloks/wms_core/operation/base.py
     (Operation model: create, execute, cancel, plan_revert, is_reversible)
   - anyblok_wms_base/bloks/wms_core/location.py
     (Location.quantity, Location.base_quantity_query, Location.tag_cte)
   - anyblok_wms_base/bloks/wms_core/operation/tests/test_split.py
     (observable behaviour of Split and Aggregate, whose implementation
      module is not part of the provided sources)

   Conventions: database datetimes are modelled as integers; the store is a
   list of records; raising a Python exception is modelled either by an
   Except error value or, for methods that mutate the object before
   raising, by returning the mutated record together with an error value.
-/

namespace AnyblokWmsBase

/-- Exceptions raised by wms-core (anyblok_wms_base.exceptions).
`operationError` models OperationError, the class raised both for state
guards (what the spec calls InvalidStateTransition) and for a missing
mandatory `dt_execution` (what the spec calls InvalidArgument);
`operationCreateArgFollows` models OperationCreateArgFollows (the spec's
IllegalArgument for explicitly supplied predecessor edges);
`operationIrreversible` models OperationIrreversibleError;
`valueError` models the plain ValueError raised by Location.quantity;
`recursionError` models Python's RecursionError, which the docstrings of
`cancel` and `obliviate` acknowledge can occur on huge graphs (the
recursion fuel of the embedding running out). -/
inductive Err where
  | operationError
  | operationCreateArgFollows
  | operationIrreversible
  | valueError
  | recursionError
deriving DecidableEq

/-- States of an Operation (OPERATION_STATES): planned, started, done. -/
inductive OpState where
  | planned
  | started
  | done
deriving DecidableEq

/-- Modelled from the spec: the Goods Type behaviours column
(goods.py is not under the provided sources). The spec says a Goods Type
declares named behaviours, notably the global "physical" flag
(SPLIT_AGGREGATE_PHYSICAL_BEHAVIOUR in test_split.py), which forces
Split/Aggregate irreversibility unless an explicit `reversible: true`
override is present. -/
structure GoodsType where
  behaviour_physical : Bool := false
  behaviour_split_reversible : Option Bool := none
  behaviour_aggregate_reversible : Option Bool := none
deriving DecidableEq

/-- Modelled from the spec: Goods.Type.is_split_reversible (used by
test_split.test_irreversible but implemented outside the provided
sources): an explicit override wins, otherwise the "physical" behaviour
flag forces irreversibility. -/
def GoodsType.is_split_reversible (gt : GoodsType) : Bool :=
  match gt.behaviour_split_reversible with
  | some b => b
  | none => !gt.behaviour_physical

/-- Modelled from the spec: Goods.Type.is_aggregate_reversible, symmetric
to `GoodsType.is_split_reversible`. -/
def GoodsType.is_aggregate_reversible (gt : GoodsType) : Bool :=
  match gt.behaviour_aggregate_reversible with
  | some b => b
  | none => !gt.behaviour_physical

/-- Polymorphic payload of an Operation row: the `type` Selection column
together with the subtype columns, encoded as a sum. `base` stands for
subtypes with no reversibility override (Operation.is_reversible defaults
to False); `split` and `aggregate` carry the Goods Type whose behaviours
decide their reversibility. -/
inductive OpData where
  | base
  | split (goodsType : GoodsType) (quantity : Int)
  | aggregate (goodsType : GoodsType)
deriving DecidableEq

/-- An Operation row (Model.Wms.Operation): integer id, state,
`follows` edges to the ids of its immediate predecessors (the
wms_operation_history many-to-many), `dt_execution` (not nullable) and
optional `dt_start`. The free-text comment column plays no role in any
verified property and is omitted. -/
structure Operation where
  id : Nat
  state : OpState
  follows : List Nat
  dt_execution : Int
  dt_start : Option Int
  data : OpData
deriving DecidableEq

/-- Operation.is_reversible: the base implementation returns False;
Split and Aggregate dispatch to the Goods Type behaviours. -/
def Operation.is_reversible (op : Operation) : Bool :=
  match op.data with
  | .base => false
  | .split gt _ => gt.is_split_reversible
  | .aggregate gt => gt.is_aggregate_reversible

/-- The Operation table. -/
abbrev OpStore := List Operation

/-- The `followers` side of the many-to-many: operations whose `follows`
edges contain the given id. -/
def followersOf (s : OpStore) (i : Nat) : List Operation :=
  s.filter (fun o => decide (i ∈ o.follows))

/-- Delete the row(s) with the given id (Operation.delete). -/
def deleteOp (s : OpStore) (i : Nat) : OpStore :=
  s.filter (fun o => decide (o.id ≠ i))

/-- Clear the `follows` edges of the row with the given id
(self.follows.clear()). -/
def clearFollows (s : OpStore) (i : Nat) : OpStore :=
  s.map (fun o => if o.id = i then { o with follows := [] } else o)

/-- The ids present in the store. -/
def ids (s : OpStore) : List Nat := s.map Operation.id

/-- Sequentially run a store-transforming step over a list of operations,
stopping at the first error: the `for follower in followers:` loop bodies
of cancel and obliviate. -/
def runSeq (step : OpStore → Operation → Except Err OpStore) :
    OpStore → List Operation → Except Err OpStore
  | t, [] => .ok t
  | t, f :: l =>
    match step t f with
    | .error e => .error e
    | .ok t2 => runSeq step t2 l

/-- Operation.cancel, with explicit recursion fuel standing for the Python
call stack (the source docstring notes the simple recursion can raise
RecursionError on huge graphs). If the state is not `planned` the call
fails; otherwise the follower set is snapshotted
(`followers = tuple(self.followers)`), every follower is cancelled
recursively, the subtype hook cancel_single runs (its consequences live in
the Goods/Avatar ledger, not in the Operation table modelled here), the
`follows` edges are cleared and the row is deleted. -/
def cancel : Nat → OpStore → Operation → Except Err OpStore
  | 0, _, _ => .error .recursionError
  | fuel + 1, s, op =>
    if op.state ≠ OpState.planned then
      .error .operationError
    else
      match runSeq (fun t f => cancel fuel t f) s (followersOf s op.id) with
      | .error e => .error e
      | .ok t => .ok (deleteOp (clearFollows t op.id) op.id)

/-- Reachability along `followers` edges, over the records of a fixed
store: `Reach s a j` holds when the operation with id `j` is `a` itself or
can be reached from `a` by repeatedly stepping to a follower. -/
inductive Reach (s : OpStore) (a : Nat) : Nat → Prop
  | refl : Reach s a a
  | step {b : Nat} {c : Operation} : Reach s a b → c ∈ s → b ∈ c.follows → Reach s a c.id

/-- Subtype hooks used by Operation.execute: check_execute_conditions may
raise; execute_planned corrects the ledger (of abstract type α) and may
raise after partial mutation. -/
structure ExecHooks (α : Type) where
  check_execute_conditions : Operation → Option Err
  execute_planned : Operation → α → α × Option Err

/-- Operation.execute(dt_execution?). Returns the ledger, the operation
record as it stands when the call returns or raises, and the raised
exception if any. If the state is already `done` nothing happens.
Otherwise dt_execution is set (defaulting to now), dt_start is backfilled
if unset, the subtype preconditions are re-checked, execute_planned runs,
and only then the state becomes `done`. -/
def execute {α : Type} (hooks : ExecHooks α) (g : α) (op : Operation)
    (dt_execution : Option Int) (now : Int) : α × Operation × Option Err :=
  if op.state = OpState.done then (g, op, none)
  else
    let dt := dt_execution.getD now
    let op1 := { op with dt_execution := dt }
    let op2 := if op1.dt_start = none then { op1 with dt_start := some dt } else op1
    match hooks.check_execute_conditions op2 with
    | some e => (g, op2, some e)
    | none =>
      match hooks.execute_planned op2 g with
      | (g2, some e) => (g2, op2, some e)
      | (g2, none) => (g2, { op2 with state := OpState.done }, none)

/-- Subtype hooks used by Operation.create: check_create_conditions (may
raise OperationNotExecutable), find_parent_operations (computes the
`follows` edges from the subtype fields), op_data (the subtype columns
forwarded to insert) and after_insert (creates the affected Avatars; may
raise). The subtype fields have abstract type β. -/
structure CreateHooks (β : Type) where
  check_create_conditions : OpState → Int → β → Option Err
  find_parent_operations : β → List Nat
  op_data : β → OpData
  after_insert : Operation → Option Err

/-- Tail of Operation.create once dt_execution has been resolved:
check_create_conditions, find_parent_operations, insert, extension of the
`follows` edges with the computed parents, after_insert. Returns the
Operation table after the call together with the created row or the
raised exception. Note that the source forwards dt_start to nothing:
`cls.insert(state=state, dt_execution=dt_execution, **fields)` does not
pass it, so the inserted row always has dt_start null. -/
def createResolved {β : Type} (hooks : CreateHooks β) (s : OpStore)
    (state : OpState) (dt : Int) (fields : β) (new_id : Nat) :
    OpStore × Except Err Operation :=
  match hooks.check_create_conditions state dt fields with
  | some e => (s, .error e)
  | none =>
    let op : Operation :=
      { id := new_id, state := state,
        follows := hooks.find_parent_operations fields,
        dt_execution := dt, dt_start := none,
        data := hooks.op_data fields }
    let s2 := s ++ [op]
    match hooks.after_insert op with
    | some e => (s2, .error e)
    | none => (s2, .ok op)

/-- Operation.create(state, follows, dt_execution, dt_start, fields).
First forbid_follows_in_create raises OperationCreateArgFollows if the
caller passed `follows`; then a missing dt_execution defaults to now when
state is `done` and raises OperationError otherwise; the rest is
`createResolved`. -/
def create {β : Type} (hooks : CreateHooks β) (s : OpStore) (state : OpState)
    (follows : Option (List Nat)) (dt_execution : Option Int)
    (dt_start : Option Int) (fields : β) (now : Int) (new_id : Nat) :
    OpStore × Except Err Operation :=
  match follows with
  | some _ => (s, .error .operationCreateArgFollows)
  | none =>
    match dt_execution with
    | none =>
        if state = OpState.done then createResolved hooks s state now fields new_id
        else (s, .error .operationError)
    | some dt => createResolved hooks s state dt fields new_id

/-- Sequentially plan the reversal of each follower, accumulating the
follower reversal operations and the executable leaf reversals: the
`for follower in self.followers:` loop of plan_revert. -/
def revertSeq (step : OpStore → Operation → Except Err (OpStore × Operation × List Operation)) :
    OpStore → List Operation → List Operation → List Operation →
    Except Err (OpStore × List Operation × List Operation)
  | s, [], revs, leafs => .ok (s, revs, leafs)
  | s, f :: l, revs, leafs =>
    match step s f with
    | .error e => .error e
    | .ok (s2, rev, fl) => revertSeq step s2 l (revs ++ [rev]) (leafs ++ fl)

/-- Operation.plan_revert(dt_execution?), with recursion fuel as in
`cancel` and the subtype hook plan_revert_single passed as the function
`single` (store, operation, dt, follows of the reversal ↦ new store and
reversal operation). A missing dt_execution defaults to now; a state other
than `done` raises OperationError; an operation whose is_reversible
answers false raises OperationIrreversibleError; otherwise the followers
are recursively reverted first, this operation's own reversal is planned
to follow all follower reversals, and it is itself the only executable
leaf when there are no followers. -/
def plan_revert (single : OpStore → Operation → Int → List Operation → OpStore × Operation) :
    Nat → OpStore → Operation → Option Int → Int →
    Except Err (OpStore × Operation × List Operation)
  | 0, _, _, _, _ => .error .recursionError
  | fuel + 1, s, op, dt_execution, now =>
    let dt := dt_execution.getD now
    if op.state ≠ OpState.done then
      .error .operationError
    else if !op.is_reversible then
      .error .operationIrreversible
    else
      match revertSeq (fun t f => plan_revert single fuel t f none now)
          s (followersOf s op.id) [] [] with
      | .error e => .error e
      | .ok (s1, followers_reverts, exec_leafs) =>
        let res := single s1 op dt followers_reverts
        .ok (res.1, res.2, if exec_leafs.isEmpty then [res.2] else exec_leafs)

/-- States of a Goods Avatar: past, present, future. -/
inductive AvatarState where
  | past
  | present
  | future
deriving DecidableEq

/-- A Goods row as joined by Location.base_quantity_query: its declared
type and its integer quantity. -/
structure Goods where
  type : Nat
  quantity : Int
deriving DecidableEq

/-- A Goods Avatar row: the joined Goods record, the location, the
lifecycle state and the validity interval, with a null dt_until meaning
still valid. -/
structure Avatar where
  goods : Goods
  location : Nat
  state : AvatarState
  dt_from : Int
  dt_until : Option Int
deriving DecidableEq

/-- The at_datetime argument of Location.quantity: omitted (None), the
DATE_TIME_INFINITY sentinel, or an actual timestamp. -/
inductive AtDatetime where
  | omitted
  | infinity
  | timestamp (t : Int)
deriving DecidableEq

/-- Location.base_quantity_query returns the plain Avatar-Goods join and
True, meaning the final evaluation uses query.count(). -/
def base_quantity_query_use_count : Bool := true

/-- Final evaluation of the quantity query: query.count() when
base_quantity_query said so (the base class always does), otherwise the
single aggregated row (the quantity sum, None read as 0) produced by an
overridden base_quantity_query. -/
def quantityEval (q : List Avatar) : Int :=
  if base_quantity_query_use_count then (q.length : Int)
  else (q.map (fun a => a.goods.quantity)).sum

/-- The at_datetime filter of Location.quantity: DATE_TIME_INFINITY keeps
only avatars with a null dt_until; a timestamp keeps avatars with
dt_from <= at and (dt_until is null or dt_until > at); an omitted
at_datetime adds no filter. -/
def dtFilter (q : List Avatar) : AtDatetime → List Avatar
  | .omitted => q
  | .infinity => q.filter (fun a => decide (a.dt_until = none))
  | .timestamp t =>
    q.filter (fun a =>
      decide (a.dt_from ≤ t) &&
        (decide (a.dt_until = none) ||
          (match a.dt_until with
           | none => false
           | some u => decide (u > t))))

/-- Location.quantity(goods_type, additional_states?, at_datetime?): the
base join filtered by goods type and location; the state filter is
`present` alone, or `present` plus the additional states, in which case a
missing at_datetime raises ValueError; then the at_datetime filter; then
the evaluation chosen by base_quantity_query. -/
def quantity (avatars : List Avatar) (loc goods_type : Nat)
    (additional_states : Option (List AvatarState)) (at_datetime : AtDatetime) :
    Except Err Int :=
  let q := avatars.filter (fun a =>
    decide (a.goods.type = goods_type) && decide (a.location = loc))
  match additional_states with
  | none =>
    .ok (quantityEval (dtFilter
      (q.filter (fun a => decide (a.state = AvatarState.present))) at_datetime))
  | some extra =>
    let q2 := q.filter (fun a => (AvatarState.present :: extra).contains a.state)
    match at_datetime with
    | .omitted => .error .valueError
    | .infinity => .ok (quantityEval (dtFilter q2 .infinity))
    | .timestamp t => .ok (quantityEval (dtFilter q2 (.timestamp t)))

/-- Containment of a time in the half-open interval of an avatar, a null
dt_until counting as open ended: dt_from <= t < dt_until. This is the
claim-side reading of the interval filter. -/
def intervalContains (a : Avatar) (t : Int) : Bool :=
  decide (a.dt_from ≤ t) &&
    (match a.dt_until with
     | none => true
     | some u => decide (t < u))

/-- The claim-side reading of the default quantity query, following the
spec's words: the sum of the quantity fields of the present avatars of
the given type at the given location. Kept for comparison with the
`quantity` function embedded from the source. -/
def quantity_claimed_sum (avatars : List Avatar) (loc goods_type : Nat) : Int :=
  ((avatars.filter (fun a =>
      decide (a.goods.type = goods_type) && decide (a.location = loc) &&
        decide (a.state = AvatarState.present))).map
    (fun a => a.goods.quantity)).sum

/-- A location tree: id, optional tag, children. The spec's invariant is
that the parent relation is a tree built top-down, so the hierarchy that
Location.tag_cte flattens is modelled as an inductive tree. -/
inductive LocTree where
  | node (id : Nat) (tag : Option Nat) (children : List LocTree)

/-- SQL coalesce on two optional tags. -/
def coalesce (t inh : Option Nat) : Option Nat :=
  match t with
  | some x => some x
  | none => inh

mutual

/-- Location.tag_cte: the id-tag pairs produced by the recursive CTE for
the subtree rooted at the given node, when the rows already produced for
the ancestors carry the resolved tag `inh` (the seed row of the CTE uses
the top node's own raw tag, i.e. `inh = none`): each row coalesces the
node's own tag with the parent row's tag. -/
def tag_cte (inh : Option Nat) : LocTree → List (Nat × Option Nat)
  | .node i t cs => (i, coalesce t inh) :: tag_cte_children (coalesce t inh) cs

/-- The rows the recursive part of the CTE produces for a list of child
subtrees, all of whose parents resolved to `inh`. -/
def tag_cte_children (inh : Option Nat) : List LocTree → List (Nat × Option Nat)
  | [] => []
  | c :: cs => tag_cte inh c ++ tag_cte_children inh cs

end

/-- The id of the node reached by following the given child-index path. -/
def idAtPath : LocTree → List Nat → Option Nat
  | .node i _ _, [] => some i
  | .node _ _ cs, k :: p =>
    match cs.get? k with
    | none => none
    | some c => idAtPath c p

/-- The resolved tag of the node reached by the given child-index path,
propagating the coalesced tag downward exactly as the CTE does. -/
def effAtPath (inh : Option Nat) : LocTree → List Nat → Option (Option Nat)
  | .node _ t _, [] => some (coalesce t inh)
  | .node _ t cs, k :: p =>
    match cs.get? k with
    | none => none
    | some c => effAtPath (coalesce t inh) c p

/-- The raw tags along the given path, listed from the reached node
upward to the root. -/
def tagsUp : LocTree → List Nat → Option (List (Option Nat))
  | .node _ t _, [] => some [t]
  | .node _ t cs, k :: p =>
    match cs.get? k with
    | none => none
    | some c => (tagsUp c p).map (fun l => l ++ [t])

/-- First set tag in a list of optional tags: the nearest tagged ancestor
when applied to `tagsUp`. -/
def firstSome : List (Option Nat) → Option Nat
  | [] => none
  | o :: l =>
    match o with
    | some x => some x
    | none => firstSome l

namespace SplitModel

/-- A Goods row as manipulated by test_split.py: quantity-bearing, with
its location, lifecycle state and the Operation recorded as its reason. -/
structure Goods where
  id : Nat
  type : Nat
  quantity : Int
  location : Nat
  state : AvatarState
  reason : Nat
deriving DecidableEq

/-- Modelled from the spec: the effect of a done Split (its implementation
module is not under the provided sources) on the Goods rows, as observed
by test_split.test_create_done: the original row keeps its identity with
its quantity reduced by the split quantity and its reason set to the
Split, and a second row of the split quantity appears at the same
location, in the same state and of the same type, also caused by the
Split. -/
def split_apply (split_id new_id : Nat) (g : Goods) (quantity : Int) :
    Goods × Goods :=
  ({ g with quantity := g.quantity - quantity, reason := split_id },
   { id := new_id, type := g.type, quantity := quantity,
     location := g.location, state := g.state, reason := split_id })

/-- Modelled from the spec: the effect of a done Aggregate (implementation
not under the provided sources) on the Goods rows: a single output row
whose quantity is the sum of the input quantities. -/
def aggregate_apply (agg_id new_id : Nat) (inputs : List Goods)
    (loc ty : Nat) (st : AvatarState) : Goods :=
  { id := new_id, type := ty, quantity := (inputs.map Goods.quantity).sum,
    location := loc, state := st, reason := agg_id }

end SplitModel


/-- The base join of `quantity` filtered by goods type, location, and the
widened state set `present` plus the additional states: the claim-side
description of the rows the query selects before the datetime filter. -/
def stateFiltered (avatars : List Avatar) (loc gt : Nat) (extra : List AvatarState) :
    List Avatar :=
  (avatars.filter (fun a => decide (a.goods.type = gt) && decide (a.location = loc))).filter
    (fun a => decide (a.state ∈ AvatarState.present :: extra))

/-- A one-avatar ledger: a single `present` avatar of quantity 2, of goods
type 7, at location 5. -/
def avC : List Avatar :=
  [{ goods := { type := 7, quantity := 2 }, location := 5, state := .present,
     dt_from := 0, dt_until := none }]

/-- A planned operation with no predecessors. -/
def opW1 : Operation :=
  { id := 1, state := .planned, follows := [], dt_execution := 0, dt_start := none,
    data := .base }

/-- A planned follower of `opW1`. -/
def opW2 : Operation :=
  { id := 2, state := .planned, follows := [1], dt_execution := 0, dt_start := none,
    data := .base }

/-- A two-operation store: a planned operation and its planned follower. -/
def storeW : OpStore := [opW1, opW2]

/-- A rank function decreasing along the follower edges of `storeW`. -/
def rankW : Nat → Nat := fun i => 3 - i

/-- A planned operation with no predecessors, for the cancel counterexample. -/
def opC1x : Operation :=
  { id := 1, state := .planned, follows := [], dt_execution := 0, dt_start := none,
    data := .base }

/-- A follower of `opC1x` that is already done. -/
def opC2x : Operation :=
  { id := 2, state := .done, follows := [1], dt_execution := 0, dt_start := none,
    data := .base }

/-- A store where a planned operation has a done follower. -/
def storeCx : OpStore := [opC1x, opC2x]

/-- Execution hooks whose checks always pass and whose execute_planned
leaves the ledger alone. -/
def hooksNoop : ExecHooks Unit :=
  { check_execute_conditions := fun _ => none,
    execute_planned := fun _ g => (g, none) }

/-- An operation already in state done. -/
def opDoneW : Operation :=
  { id := 3, state := .done, follows := [], dt_execution := 8, dt_start := none,
    data := .base }

/-- Execution hooks whose check_execute_conditions always raises. -/
def hooksFail : ExecHooks Unit :=
  { check_execute_conditions := fun _ => some .operationError,
    execute_planned := fun _ g => (g, none) }

/-- A planned operation with a null dt_start, about to be executed. -/
def opPlannedW : Operation :=
  { id := 6, state := .planned, follows := [], dt_execution := 99, dt_start := none,
    data := .base }

/-- The record `opPlannedW` becomes when execute fails at the condition
check with attempted execution time 7. -/
def opPlannedW2 : Operation :=
  { id := 6, state := .planned, follows := [], dt_execution := 7, dt_start := some 7,
    data := .base }

/-- Creation hooks whose checks pass, whose find_parent_operations answers
the single parent 3, and whose after_insert does nothing. -/
def hooksCreateW : CreateHooks Unit :=
  { check_create_conditions := fun _ _ _ => none,
    find_parent_operations := fun _ => [3],
    op_data := fun _ => .base,
    after_insert := fun _ => none }

/-- The operation `create` inserts for `hooksCreateW` with dt_execution 5. -/
def createdW : Operation :=
  { id := 9, state := .done, follows := [3], dt_execution := 5, dt_start := none,
    data := .base }

/-- The operation `create` inserts for `hooksCreateW` when dt_execution is
omitted and now is 4. -/
def createdW2 : Operation :=
  { id := 9, state := .done, follows := [3], dt_execution := 4, dt_start := none,
    data := .base }

/-- A trivial plan_revert_single hook. -/
def singleW : OpStore → Operation → Int → List Operation → OpStore × Operation :=
  fun s o _ _ => (s, o)

/-- A Goods Type carrying the physical behaviour flag and no explicit
reversibility override. -/
def gtPhysical : GoodsType :=
  { behaviour_physical := true, behaviour_split_reversible := none,
    behaviour_aggregate_reversible := none }

/-- A done Split of a Goods Type with the physical behaviour flag. -/
def splitDoneW : Operation :=
  { id := 4, state := .done, follows := [], dt_execution := 0, dt_start := none,
    data := .split gtPhysical 2 }

/-- A present Goods row of quantity 3, as in the scenario of the spec. -/
def gW : SplitModel.Goods :=
  { id := 1, type := 4, quantity := 3, location := 5, state := .present, reason := 9 }

/-- A location tree: a tagged root, an untagged child, a tagged grandchild. -/
def treeW : LocTree :=
  .node 1 (some 20) [.node 2 none [.node 3 (some 30) []]]


/-- Membership in the follower set. -/
lemma mem_followersOf {s : OpStore} {i : Nat} {f : Operation} :
    f ∈ followersOf s i ↔ f ∈ s ∧ i ∈ f.follows := by
  simp [followersOf, List.mem_filter]

/-- Membership after clearing the `follows` edges of an operation and
deleting it: exactly the other records survive, unchanged. -/
lemma mem_deleteClear {t : OpStore} {i : Nat} {y : Operation} :
    y ∈ deleteOp (clearFollows t i) i ↔ y ∈ t ∧ y.id ≠ i := by
  simp only [deleteOp, clearFollows, List.mem_filter, List.mem_map, decide_eq_true_eq]
  constructor
  · rintro ⟨⟨z, hz, hy⟩, hne⟩
    by_cases hzi : z.id = i
    · subst hy; simp [hzi] at hne ⊢
    · simp [hzi] at hy; subst hy; exact ⟨hz, hzi⟩
  · rintro ⟨hy, hne⟩
    exact ⟨⟨y, hy, by simp [hne]⟩, hne⟩

/-- Membership in the id projection of a store. -/
lemma mem_ids {s : OpStore} {i : Nat} : i ∈ ids s ↔ ∃ o ∈ s, o.id = i := by
  simp [ids, List.mem_map]

/-- Reachability is monotone in the store. -/
lemma Reach.mono {t s : OpStore} (h : ∀ y ∈ t, y ∈ s) {a j : Nat} :
    Reach t a j → Reach s a j := by
  intro hr
  induction hr with
  | refl => exact .refl
  | step hb hc hf ih => exact .step ih (h _ hc) hf

/-- Reachability is transitive. -/
lemma Reach.trans {s : OpStore} {a b j : Nat} (h1 : Reach s a b) (h2 : Reach s b j) :
    Reach s a j := by
  induction h2 with
  | refl => exact h1
  | step hb hc hf ih => exact .step ih hc hf

/-- An id reachable from a stored operation is the id of a stored record. -/
lemma reach_mem_ids {s : OpStore} {op : Operation} (hop : op ∈ s) {j : Nat}
    (h : Reach s op.id j) : j ∈ ids s := by
  induction h with
  | refl => exact mem_ids.2 ⟨op, hop, rfl⟩
  | step _ hc _ ih => exact mem_ids.2 ⟨_, hc, rfl⟩

/-- In a store without duplicate ids, records are determined by their id. -/
lemma nodup_ids_inj {s : OpStore} (h : (ids s).Nodup) :
    ∀ a ∈ s, ∀ b ∈ s, a.id = b.id → a = b := by
  induction s with
  | nil => simp
  | cons x l ih =>
    rw [ids, List.map_cons, List.nodup_cons] at h
    intro a ha b hb heq
    rcases List.mem_cons.1 ha with ha1 | ha1
    · rcases List.mem_cons.1 hb with hb1 | hb1
      · rw [ha1, hb1]
      · exfalso
        apply h.1
        have hm : b.id ∈ List.map Operation.id l := List.mem_map_of_mem Operation.id hb1
        rwa [← heq, ha1] at hm
    · rcases List.mem_cons.1 hb with hb1 | hb1
      · exfalso
        apply h.1
        have hm : a.id ∈ List.map Operation.id l := List.mem_map_of_mem Operation.id ha1
        rwa [heq, hb1] at hm
      · exact ih h.2 a ha1 b hb1 heq

/-- Main recursion invariant of `cancel`: for any substore of a store `s`
whose followers of the root are all planned and ranked decreasingly, a
cancel call on an `s`-record reachable from the root succeeds given enough
fuel, only removes records, removes its own id, leaves no surviving record
following an id it removed, and removes only records reachable from the
cancelled operation. -/
lemma cancel_ok_main (s : OpStore) (r : Nat → Nat) (X : Operation)
    (hrank : ∀ c ∈ s, ∀ b ∈ c.follows, r c.id < r b)
    (hplan : ∀ c ∈ s, Reach s X.id c.id → c.state = OpState.planned) :
    ∀ fuel (t : OpStore) (op : Operation),
      (∀ y ∈ t, y ∈ s) → op ∈ s → Reach s X.id op.id → r op.id < fuel →
      ∃ t2, cancel fuel t op = .ok t2 ∧
        (∀ y ∈ t2, y ∈ t) ∧
        op.id ∉ ids t2 ∧
        (∀ c ∈ t2, ∀ b ∈ c.follows, b ∈ ids t → b ∈ ids t2) ∧
        (∀ y ∈ t, y ∉ t2 → Reach t op.id y.id) := by
  intro fuel
  induction fuel with
  | zero => intro t op _ _ _ hf; exact absurd hf (Nat.not_lt_zero _)
  | succ n ih =>
    have seq : ∀ (l : List Operation) (t : OpStore),
        (∀ f ∈ l, f ∈ s ∧ Reach s X.id f.id ∧ r f.id < n) →
        (∀ y ∈ t, y ∈ s) →
        ∃ t2, runSeq (fun u f => cancel n u f) t l = .ok t2 ∧
          (∀ y ∈ t2, y ∈ t) ∧
          (∀ f ∈ l, f.id ∉ ids t2) ∧
          (∀ c ∈ t2, ∀ b ∈ c.follows, b ∈ ids t → b ∈ ids t2) ∧
          (∀ y ∈ t, y ∉ t2 → ∃ f ∈ l, Reach t f.id y.id) := by
      intro l
      induction l with
      | nil =>
        intro t _ _
        exact ⟨t, rfl, fun y hy => hy, by simp, fun c _ b _ hbt => hbt,
          fun y hy hny => absurd hy hny⟩
      | cons f l ihl =>
        intro t hl hts
        obtain ⟨hfs, hfr, hffuel⟩ := hl f (List.mem_cons_self f l)
        obtain ⟨t1, heq1, hsub1, hkill1, hclos1, hsnd1⟩ := ih t f hts hfs hfr hffuel
        obtain ⟨t2, heq2, hsub2, hkillL, hclos2, hsnd2⟩ :=
          ihl t1 (fun g hg => hl g (List.mem_cons_of_mem f hg))
            (fun y hy => hts y (hsub1 y hy))
        refine ⟨t2, ?_, fun y hy => hsub1 y (hsub2 y hy), ?_, ?_, ?_⟩
        · simp [runSeq, heq1, heq2]
        · intro g hg
          rcases List.mem_cons.1 hg with rfl | hg
          · intro hmem
            obtain ⟨o, ho, hoid⟩ := mem_ids.1 hmem
            exact hkill1 (mem_ids.2 ⟨o, hsub2 o ho, hoid⟩)
          · exact hkillL g hg
        · intro c hc b hb hbt
          exact hclos2 c hc b hb (hclos1 c (hsub2 c hc) b hb hbt)
        · intro y hy hny
          by_cases hyt1 : y ∈ t1
          · obtain ⟨g, hg, hrg⟩ := hsnd2 y hyt1 hny
            exact ⟨g, List.mem_cons_of_mem f hg, hrg.mono hsub1⟩
          · exact ⟨f, List.mem_cons_self f l, hsnd1 y hy hyt1⟩
    intro t op hts hops hreach hfuel
    have hstate : op.state = OpState.planned := hplan op hops hreach
    have hfs : ∀ f ∈ followersOf t op.id, f ∈ s ∧ Reach s X.id f.id ∧ r f.id < n := by
      intro f hf
      obtain ⟨hft, hfe⟩ := mem_followersOf.1 hf
      have hfsmem := hts f hft
      refine ⟨hfsmem, .step hreach hfsmem hfe, ?_⟩
      have := hrank f hfsmem op.id hfe
      omega
    obtain ⟨t1, heqSeq, hsub1, hkills, hclos1, hsnd1⟩ := seq (followersOf t op.id) t hfs hts
    refine ⟨deleteOp (clearFollows t1 op.id) op.id, ?_, ?_, ?_, ?_, ?_⟩
    · simp [cancel, hstate, heqSeq]
    · intro y hy
      exact hsub1 y (mem_deleteClear.1 hy).1
    · intro hmem
      obtain ⟨o, ho, hoid⟩ := mem_ids.1 hmem
      exact (mem_deleteClear.1 ho).2 hoid
    · intro c hc b hb hbt
      obtain ⟨hct1, hcid⟩ := mem_deleteClear.1 hc
      by_cases hbop : b = op.id
      · subst hbop
        have hcf : c ∈ followersOf t op.id := mem_followersOf.2 ⟨hsub1 c hct1, hb⟩
        exact absurd (mem_ids.2 ⟨c, hct1, rfl⟩) (hkills c hcf)
      · have hbt1 : b ∈ ids t1 := hclos1 c hct1 b hb hbt
        obtain ⟨w, hw, hwid⟩ := mem_ids.1 hbt1
        exact mem_ids.2 ⟨w, mem_deleteClear.2 ⟨hw, by rw [hwid]; exact hbop⟩, hwid⟩
    · intro y hy hny
      by_cases hyt1 : y ∈ t1
      · have hyid : y.id = op.id := by
          by_contra hne
          exact hny (mem_deleteClear.2 ⟨hyt1, hne⟩)
        rw [hyid]
        exact .refl
      · obtain ⟨f, hfmem, hrf⟩ := hsnd1 y hy hyt1
        obtain ⟨hft, hfe⟩ := mem_followersOf.1 hfmem
        exact Reach.trans (.step .refl hft hfe) hrf

/-- A successful `execute` always leaves the operation in state done. -/
lemma execute_ok_state {α : Type} (hooks : ExecHooks α) (g : α) (op : Operation)
    (dt1 : Option Int) (now1 : Int) (g2 : α) (op2 : Operation)
    (h : execute hooks g op dt1 now1 = (g2, op2, none)) : op2.state = OpState.done := by
  simp only [execute] at h
  split at h
  · next hdone =>
    simp only [Prod.mk.injEq] at h
    rw [← h.2.1]
    exact hdone
  · next hnd =>
    split at h
    · simp only [Prod.mk.injEq] at h
      exact absurd h.2.2 (by simp)
    · split at h
      · simp only [Prod.mk.injEq] at h
        exact absurd h.2.2 (by simp)
      · simp only [Prod.mk.injEq] at h
        rw [← h.2.1]

/-- The row a successful `createResolved` returns. -/
lemma createResolved_ok {β : Type} (hooks : CreateHooks β) (s : OpStore) (st : OpState)
    (dt : Int) (fields : β) (nid : Nat) (op2 : Operation)
    (h : (createResolved hooks s st dt fields nid).2 = .ok op2) :
    op2 = { id := nid, state := st, follows := hooks.find_parent_operations fields,
            dt_execution := dt, dt_start := none, data := hooks.op_data fields } := by
  simp only [createResolved] at h
  split at h
  · exact absurd h (by simp)
  · split at h
    · exact absurd h (by simp)
    · exact (Except.ok.inj h).symm

/-- The first element of a one-element list of optional tags. -/
lemma firstSome_single (t : Option Nat) : firstSome [t] = t := by
  cases t <;> rfl

/-- First set tag of a concatenation. -/
lemma firstSome_append (l m : List (Option Nat)) :
    firstSome (l ++ m) = coalesce (firstSome l) (firstSome m) := by
  induction l with
  | nil => rfl
  | cons o l ih =>
    cases o with
    | none => simpa [firstSome, coalesce] using ih
    | some x => simp [firstSome, coalesce]

/-- Coalesce is associative. -/
lemma coalesce_assoc (a b c : Option Nat) :
    coalesce (coalesce a b) c = coalesce a (coalesce b c) := by
  cases a <;> rfl

/-- The tag the downward propagation resolves for a node is the first set
tag among its own tag and its ancestors' tags, falling back to the tag
inherited above the root. -/
lemma effAtPath_eq_nearest :
    ∀ (p : List Nat) (inh : Option Nat) (root : LocTree),
      effAtPath inh root p =
        (tagsUp root p).map (fun l => coalesce (firstSome l) inh) := by
  intro p
  induction p with
  | nil =>
    intro inh root
    cases root with
    | node i t cs => simp [effAtPath, tagsUp, firstSome_single]
  | cons k p ih =>
    intro inh root
    cases root with
    | node i t cs =>
      simp only [effAtPath, tagsUp]
      cases hks : cs.get? k with
      | none => rfl
      | some c =>
        dsimp only
        rw [ih (coalesce t inh) c]
        cases htu : tagsUp c p with
        | none => rfl
        | some l =>
          simp only [Option.map_some', Option.map_map, Function.comp]
          rw [firstSome_append, firstSome_single, coalesce_assoc]

/-- Rows produced for a child subtree appear among the rows produced for
the whole list of children. -/
lemma mem_tag_cte_children (inh : Option Nat) (cs : List LocTree) (c : LocTree)
    (x : Nat × Option Nat) (hc : c ∈ cs) (hx : x ∈ tag_cte inh c) :
    x ∈ tag_cte_children inh cs := by
  induction cs with
  | nil => exact absurd hc (List.not_mem_nil c)
  | cons d ds ih =>
    rw [tag_cte_children]
    rcases List.mem_cons.1 hc with rfl | hc
    · exact List.mem_append_left _ hx
    · exact List.mem_append_right _ (ih hc)

/-- The id-tag pair the downward propagation computes for any node of the
tree is a row of the flattening CTE. -/
lemma effAtPath_mem_tag_cte :
    ∀ (p : List Nat) (inh : Option Nat) (root : LocTree) (j : Nat) (e : Option Nat),
      idAtPath root p = some j → effAtPath inh root p = some e →
      (j, e) ∈ tag_cte inh root := by
  intro p
  induction p with
  | nil =>
    intro inh root j e hid heff
    cases root with
    | node i t cs =>
      simp only [idAtPath] at hid
      simp only [effAtPath] at heff
      rw [tag_cte]
      exact (Option.some.inj hid) ▸ (Option.some.inj heff) ▸ List.mem_cons_self _ _
  | cons k p ih =>
    intro inh root j e hid heff
    cases root with
    | node i t cs =>
      simp only [idAtPath] at hid
      simp only [effAtPath] at heff
      cases hks : cs.get? k with
      | none => rw [hks] at hid; exact Option.noConfusion hid
      | some c =>
        rw [hks] at hid heff
        rw [tag_cte]
        exact List.mem_cons_of_mem _
          (mem_tag_cte_children (coalesce t inh) cs c (j, e)
            (List.get?_mem hks) (ih (coalesce t inh) c j e hid heff))


/-- C1 counterexample: on a ledger with a single `present` avatar whose
goods quantity is 2, Location.quantity with no additional states and no
at_datetime returns 1 (the count of avatar rows), not the sum 2 of the
quantity fields the claim states. -/
theorem Location_quantity_counts_not_sums :
    quantity avC 5 7 none .omitted ≠ .ok (quantity_claimed_sum avC 5 7) := by
  intro h
  have h1 : (Except.ok (1 : Int) : Except Err Int) = .ok (2 : Int) := h
  exact absurd (Except.ok.inj h1) (by decide)

/-- C1 (amended): Location.quantity with no additional_states and no
at_datetime returns the number of Goods Avatars of the given type at the
location that are in state `present` (base_quantity_query evaluates with
query.count(), so avatar rows are counted, not their quantity fields
summed), and no datetime-interval filter is applied. -/
theorem Location_quantity_default_count :
    ∀ (avatars : List Avatar) (loc gt : Nat),
      quantity avatars loc gt none AtDatetime.omitted =
        .ok ((avatars.filter (fun a =>
          decide (a.state = AvatarState.present) &&
            (decide (a.goods.type = gt) && decide (a.location = loc)))).length : Int) := by
  intro avatars loc gt
  simp [quantity, dtFilter, quantityEval, base_quantity_query_use_count, List.filter_filter]

/-- C2 (amended): cancelling an operation that is not `planned` fails with
OperationError (the spec's InvalidStateTransition); cancelling a planned
operation all of whose transitive followers are planned, in a store with
no duplicate ids whose follower edges admit a decreasing rank (the
acyclicity the recursion needs to terminate within the available fuel),
succeeds, removes exactly the operation itself and every operation
transitively following it, and leaves every other record in place. -/
theorem Operation_cancel_spec :
    ∀ (s : OpStore) (op : Operation) (fuel : Nat) (r : Nat → Nat),
      (op.state ≠ OpState.planned →
        cancel (fuel + 1) s op = .error .operationError) ∧
      ((ids s).Nodup → op ∈ s →
        (∀ c ∈ s, ∀ b ∈ c.follows, r c.id < r b) →
        (∀ c ∈ s, Reach s op.id c.id → c.state = OpState.planned) →
        r op.id < fuel →
        ∃ s2, cancel fuel s op = .ok s2 ∧
          (∀ y ∈ s2, y ∈ s) ∧
          (∀ j, Reach s op.id j → j ∉ ids s2) ∧
          (∀ y ∈ s, ¬ Reach s op.id y.id → y ∈ s2)) := by
  intro s op fuel r
  constructor
  · intro h
    simp [cancel, h]
  · intro hnd hop hrank hplan hfuel
    obtain ⟨s2, heq, hsub, hid, hclos, hsnd⟩ :=
      cancel_ok_main s r op hrank hplan fuel s op (fun y hy => hy) hop .refl hfuel
    refine ⟨s2, heq, hsub, ?_, ?_⟩
    · intro j hr
      induction hr with
      | refl => exact hid
      | step hb hc hf ihb =>
        intro hcid
        obtain ⟨c2, hc2, hc2id⟩ := mem_ids.1 hcid
        have hceq : c2 = _ := nodup_ids_inj hnd c2 (hsub c2 hc2) _ hc hc2id
        have hbids : _ ∈ ids s := reach_mem_ids hop hb
        exact ihb (hclos c2 hc2 _ (hceq ▸ hf) hbids)
    · intro y hy hnr
      by_contra hns
      exact hnr (hsnd y hy hns)

/-- C2 witness: cancelling the planned operation 1 of `storeW`, whose only
follower is the planned operation 2, succeeds and removes both. -/
theorem Operation_cancel_spec_witness :
    ∃ s2, cancel 3 storeW opW1 = .ok s2 ∧
      (∀ y ∈ s2, y ∈ storeW) ∧
      (∀ j, Reach storeW opW1.id j → j ∉ ids s2) ∧
      (∀ y ∈ storeW, ¬ Reach storeW opW1.id y.id → y ∈ s2) :=
  (Operation_cancel_spec storeW opW1 3 rankW).2 (by decide) (by decide)
    (by decide)
    (by
      intro c hc _
      rcases List.mem_cons.1 hc with h | h
      · rw [h]; rfl
      · rcases List.mem_cons.1 h with h2 | h2
        · rw [h2]; rfl
        · exact absurd h2 (List.not_mem_nil c))
    (by decide)

/-- C2 counterexample: in `storeCx` the operation 1 is planned but its
follower 2 is done, so cancel raises while recursively cancelling the
follower and never deletes operation 1, against the claim that cancel on
any planned operation deletes it and its followers. -/
theorem Operation_cancel_counterexample :
    opC1x.state = OpState.planned ∧ ∀ s2, cancel 3 storeCx opC1x ≠ .ok s2 := by
  refine ⟨rfl, ?_⟩
  intro s2 h
  have e : cancel 3 storeCx opC1x = .error .operationError := rfl
  rw [e] at h
  exact Except.noConfusion h

/-- C3: execute is idempotent: on an operation already done it returns
without touching the ledger or any field of the operation, whatever
dt_execution argument is passed, and after any successful execute a second
execute (with any arguments) leaves the resulting state unchanged. -/
theorem Operation_execute_idempotent :
    ∀ {α : Type} (hooks : ExecHooks α) (g : α) (op : Operation) (dt1 dt2 : Option Int)
      (now1 now2 : Int),
      (op.state = OpState.done → execute hooks g op dt1 now1 = (g, op, none)) ∧
      (∀ g2 op2, execute hooks g op dt1 now1 = (g2, op2, none) →
        execute hooks g2 op2 dt2 now2 = (g2, op2, none)) := by
  intro α hooks g op dt1 dt2 now1 now2
  refine ⟨fun h => by simp [execute, h], fun g2 op2 h => ?_⟩
  simp [execute, execute_ok_state hooks g op dt1 now1 g2 op2 h]

/-- C3 witness: executing the done operation `opDoneW` changes nothing. -/
theorem Operation_execute_idempotent_witness :
    opDoneW.state = OpState.done ∧
      execute hooksNoop () opDoneW none 9 = ((), opDoneW, none) :=
  ⟨rfl, (Operation_execute_idempotent hooksNoop () opDoneW none none 9 9).1 rfl⟩

/-- C4: Operation.create with an explicit non-null `follows` argument
fails with OperationCreateArgFollows (the spec's IllegalArgument) before
any row is inserted, and on every successful create the `follows` edges of
the new row are exactly what the subtype hook find_parent_operations
computed. -/
theorem Operation_create_forbids_follows :
    ∀ {β : Type} (hooks : CreateHooks β) (s : OpStore) (st : OpState) (l : List Nat)
      (dtArg dtStart : Option Int) (fields : β) (now : Int) (nid : Nat),
      (create hooks s st (some l) dtArg dtStart fields now nid =
        (s, .error .operationCreateArgFollows)) ∧
      (∀ op2, (create hooks s st none dtArg dtStart fields now nid).2 = .ok op2 →
        op2.follows = hooks.find_parent_operations fields) := by
  intro β hooks s st l dtArg dtStart fields now nid
  refine ⟨rfl, ?_⟩
  intro op2 h
  simp only [create] at h
  cases dtArg with
  | none =>
    by_cases hst : st = OpState.done
    · simp only [hst, if_true] at h
      rw [createResolved_ok hooks s OpState.done now fields nid op2 h]
    · simp only [hst, if_false] at h
      exact absurd h (by simp)
  | some dt =>
    rw [createResolved_ok hooks s st dt fields nid op2 h]

/-- C4 witness: a concrete successful create whose follows edges are the
hook's answer. -/
theorem Operation_create_forbids_follows_witness :
    createdW.follows = hooksCreateW.find_parent_operations () :=
  (Operation_create_forbids_follows hooksCreateW [] OpState.done [7] (some 5) none () 0 9).2
    createdW rfl

/-- C5: Operation.create with dt_execution omitted fails with
OperationError (raised before any insertion, so no operation is created)
when the initial state is `planned`, and proceeds with dt_execution
defaulting to the current time when the initial state is `done`. -/
theorem Operation_create_missing_dt_execution :
    ∀ {β : Type} (hooks : CreateHooks β) (s : OpStore) (dtStart : Option Int)
      (fields : β) (now : Int) (nid : Nat),
      (create hooks s OpState.planned none none dtStart fields now nid =
        (s, .error .operationError)) ∧
      (∀ s2 op2, create hooks s OpState.done none none dtStart fields now nid =
          (s2, .ok op2) → op2.dt_execution = now) := by
  intro β hooks s dtStart fields now nid
  refine ⟨rfl, ?_⟩
  intro s2 op2 h
  have h2 : (create hooks s OpState.done none none dtStart fields now nid).2 = .ok op2 := by
    rw [h]
  simp only [create, if_true] at h2
  rw [createResolved_ok hooks s OpState.done now fields nid op2 h2]

/-- C5 witness: a concrete done create with dt_execution omitted gets the
current time 4 as its dt_execution. -/
theorem Operation_create_missing_dt_execution_witness :
    createdW2.dt_execution = 4 :=
  (Operation_create_missing_dt_execution hooksCreateW [] none () 4 9).2
    [createdW2] createdW2 rfl

/-- C6: the base Operation.is_reversible returns false, and plan_revert on
a done Split, or a done Aggregate, whose Goods Type carries the physical
behaviour flag with no explicit reversibility override fails with
OperationIrreversibleError. -/
theorem Operation_plan_revert_irreversible :
    (∀ op : Operation, op.data = OpData.base → op.is_reversible = false) ∧
    (∀ (single : OpStore → Operation → Int → List Operation → OpStore × Operation)
       (fuel : Nat) (s : OpStore) (op : Operation) (gt : GoodsType) (q : Int)
       (dtArg : Option Int) (now : Int),
       op.state = OpState.done →
       gt.behaviour_physical = true →
       gt.behaviour_split_reversible = none →
       op.data = OpData.split gt q →
       plan_revert single (fuel + 1) s op dtArg now = .error .operationIrreversible) ∧
    (∀ (single : OpStore → Operation → Int → List Operation → OpStore × Operation)
       (fuel : Nat) (s : OpStore) (op : Operation) (gt : GoodsType)
       (dtArg : Option Int) (now : Int),
       op.state = OpState.done →
       gt.behaviour_physical = true →
       gt.behaviour_aggregate_reversible = none →
       op.data = OpData.aggregate gt →
       plan_revert single (fuel + 1) s op dtArg now = .error .operationIrreversible) := by
  refine ⟨?_, ?_, ?_⟩
  · intro op h
    simp [Operation.is_reversible, h]
  · intro single fuel s op gt q dtArg now hst hphys hov hdata
    have hrev : op.is_reversible = false := by
      simp [Operation.is_reversible, hdata, GoodsType.is_split_reversible, hov, hphys]
    simp [plan_revert, hst, hrev]
  · intro single fuel s op gt dtArg now hst hphys hov hdata
    have hrev : op.is_reversible = false := by
      simp [Operation.is_reversible, hdata, GoodsType.is_aggregate_reversible, hov, hphys]
    simp [plan_revert, hst, hrev]

/-- C6 witness: plan_revert on the done Split `splitDoneW` of the physical
Goods Type `gtPhysical` fails with OperationIrreversibleError. -/
theorem Operation_plan_revert_irreversible_witness :
    plan_revert singleW 1 [] splitDoneW none 0 = .error .operationIrreversible :=
  Operation_plan_revert_irreversible.2.1 singleW 0 [] splitDoneW gtPhysical 2 none 0
    rfl rfl rfl rfl

/-- C7: quantity conservation of Split and Aggregate: for every valid
split (0 < split quantity < goods quantity) the two outcome rows keep the
location, type and state of the input and their quantities sum to the
input quantity, both being positive; and the Aggregate output quantity is
exactly the sum of the input quantities. -/
theorem Split_Aggregate_quantity_conservation :
    (∀ (split_id new_id : Nat) (g : SplitModel.Goods) (q : Int),
       0 < q → q < g.quantity →
       (SplitModel.split_apply split_id new_id g q).1.quantity +
         (SplitModel.split_apply split_id new_id g q).2.quantity = g.quantity ∧
       (SplitModel.split_apply split_id new_id g q).1.location = g.location ∧
       (SplitModel.split_apply split_id new_id g q).2.location = g.location ∧
       (SplitModel.split_apply split_id new_id g q).1.type = g.type ∧
       (SplitModel.split_apply split_id new_id g q).2.type = g.type ∧
       (SplitModel.split_apply split_id new_id g q).1.state = g.state ∧
       (SplitModel.split_apply split_id new_id g q).2.state = g.state ∧
       0 < (SplitModel.split_apply split_id new_id g q).1.quantity ∧
       0 < (SplitModel.split_apply split_id new_id g q).2.quantity) ∧
    (∀ (agg_id new_id : Nat) (inputs : List SplitModel.Goods) (loc ty : Nat)
       (st : AvatarState),
       (SplitModel.aggregate_apply agg_id new_id inputs loc ty st).quantity =
         (inputs.map SplitModel.Goods.quantity).sum) := by
  constructor
  · intro split_id new_id g q hq hlt
    refine ⟨?_, rfl, rfl, rfl, rfl, rfl, rfl, ?_, hq⟩
    · simp only [SplitModel.split_apply]
      omega
    · simp only [SplitModel.split_apply]
      omega
  · intro agg_id new_id inputs loc ty st
    rfl

/-- C7 witness: splitting the quantity-3 goods `gW` by 2 yields outcomes
of quantities 1 and 2 summing to 3, as in the scenario of the spec. -/
theorem Split_quantity_conservation_witness :
    (SplitModel.split_apply 10 2 gW 2).1.quantity +
      (SplitModel.split_apply 10 2 gW 2).2.quantity = gW.quantity ∧
    (SplitModel.split_apply 10 2 gW 2).1.quantity = 1 ∧
    (SplitModel.split_apply 10 2 gW 2).2.quantity = 2 :=
  ⟨(Split_Aggregate_quantity_conservation.1 10 2 gW 2 (by decide) (by decide)).1,
    rfl, rfl⟩

/-- C8: Location.quantity with additional_states given fails with
ValueError (the spec's InvalidArgument) when at_datetime is omitted;
with the DATE_TIME_INFINITY sentinel it counts exactly the avatars of the
widened state set whose dt_until is null; and with a timestamp it counts
exactly those whose half-open interval `[dt_from, dt_until)` (null
dt_until being open ended) contains the timestamp. -/
theorem Location_quantity_additional_states :
    ∀ (avatars : List Avatar) (loc gt : Nat) (extra : List AvatarState),
      (quantity avatars loc gt (some extra) .omitted = .error .valueError) ∧
      (quantity avatars loc gt (some extra) .infinity =
        .ok (((stateFiltered avatars loc gt extra).filter
          (fun a => decide (a.dt_until = none))).length : Int)) ∧
      (∀ t : Int, quantity avatars loc gt (some extra) (.timestamp t) =
        .ok (((stateFiltered avatars loc gt extra).filter
          (fun a => intervalContains a t)).length : Int)) := by
  intro avatars loc gt extra
  have hstate : ((avatars.filter (fun a =>
      decide (a.goods.type = gt) && decide (a.location = loc))).filter
        (fun a => (AvatarState.present :: extra).contains a.state)) =
      stateFiltered avatars loc gt extra := by
    unfold stateFiltered
    apply List.filter_congr
    intro a _
    simp [List.contains, List.elem_iff]
  refine ⟨rfl, ?_, ?_⟩
  · simp only [quantity, dtFilter, quantityEval, base_quantity_query_use_count, if_true]
    rw [hstate]
  · intro t
    simp only [quantity, dtFilter, quantityEval, base_quantity_query_use_count, if_true]
    rw [hstate]
    have hfil : (stateFiltered avatars loc gt extra).filter (fun a =>
        decide (a.dt_from ≤ t) && (decide (a.dt_until = none) ||
          match a.dt_until with | none => false | some u => decide (u > t))) =
        (stateFiltered avatars loc gt extra).filter (fun a => intervalContains a t) := by
      apply List.filter_congr
      intro a _
      unfold intervalContains
      cases hdu : a.dt_until with
      | none => simp
      | some u => simp [gt_iff_lt]
    rw [hfil]

/-- C9: tag resolution: the tag the hierarchy traversal resolves for any
location of the tree is the first set tag among its own tag and the tags
of its ancestors from nearest to farthest (so its own tag when set, else
its parent's resolved tag), and every such resolved id-tag pair is a row
of the Location.tag_cte flattening. -/
theorem Location_tag_resolution :
    (∀ (p : List Nat) (inh : Option Nat) (root : LocTree),
       effAtPath inh root p =
         (tagsUp root p).map (fun l => coalesce (firstSome l) inh)) ∧
    (∀ (p : List Nat) (inh : Option Nat) (root : LocTree) (j : Nat) (e : Option Nat),
       idAtPath root p = some j → effAtPath inh root p = some e →
       (j, e) ∈ tag_cte inh root) :=
  ⟨effAtPath_eq_nearest, effAtPath_mem_tag_cte⟩

/-- C9 witness: in `treeW` the untagged location 2 resolves to the tag 20
of its parent, and the pair appears in the CTE rows. -/
theorem Location_tag_resolution_witness :
    (2, some 20) ∈ tag_cte none treeW :=
  Location_tag_resolution.2 [0] none treeW 2 (some 20) rfl rfl

/-- C10: if execute is called on a planned operation and a hook raises,
the returned operation record still has state `planned`, but its
dt_execution already holds the attempted execution time and its dt_start,
if it was null, has already been set to that same time. -/
theorem Operation_execute_failure_fields :
    ∀ {α : Type} (hooks : ExecHooks α) (g : α) (op : Operation) (dtArg : Option Int)
      (now : Int) (g2 : α) (op2 : Operation) (e : Err),
      op.state = OpState.planned →
      execute hooks g op dtArg now = (g2, op2, some e) →
      op2.state = OpState.planned ∧
      op2.dt_execution = dtArg.getD now ∧
      op2.dt_start = some (op.dt_start.getD (dtArg.getD now)) := by
  intro α hooks g op dtArg now g2 op2 e hpl h
  have hnd : ¬ op.state = OpState.done := by rw [hpl]; intro hc; exact OpState.noConfusion hc
  simp only [execute, hnd, if_false] at h
  have hfields : ∀ op3 : Operation,
      op3 = (if op.dt_start = none then
        { op with dt_execution := dtArg.getD now, dt_start := some (dtArg.getD now) }
      else { op with dt_execution := dtArg.getD now }) →
      op3.state = OpState.planned ∧ op3.dt_execution = dtArg.getD now ∧
        op3.dt_start = some (op.dt_start.getD (dtArg.getD now)) := by
    intro op3 hop3
    cases hds : op.dt_start with
    | none => rw [hop3]; simp [hds, hpl]
    | some x => rw [hop3]; simp [hds, hpl]
  split at h
  · next e2 heq =>
    simp only [Prod.mk.injEq] at h
    obtain ⟨-, hop2, -⟩ := h
    exact hfields op2 hop2.symm
  · split at h
    · next g3 e2 heq =>
      simp only [Prod.mk.injEq] at h
      obtain ⟨-, hop2, -⟩ := h
      exact hfields op2 hop2.symm
    · simp only [Prod.mk.injEq] at h
      exact absurd h.2.2 (by simp)

/-- C10 witness: executing the planned `opPlannedW` with a failing
condition check at time 7 leaves it planned with dt_execution 7 and
dt_start 7. -/
theorem Operation_execute_failure_fields_witness :
    opPlannedW2.state = OpState.planned ∧
      opPlannedW2.dt_execution = 7 ∧ opPlannedW2.dt_start = some 7 :=
  Operation_execute_failure_fields hooksFail () opPlannedW none 7 () opPlannedW2
    .operationError rfl rfl

end AnyblokWmsBase
